import Mathlib

/-!
Shallow embedding of the justd CLI scaffolding tool (`src/utils/repo.ts`).

The file models, from the source:
  * the remote-URL builders `getThemesRepoUrl`, `getRepoUrlForComponent`,
    `getUtilsFolder`;
  * Node's `path.join` for POSIX paths;
  * the Laravel client-directive strip, i.e. the JavaScript global regex
    replace with pattern quote + "use client" + quote + `\s*` + `\n?`;
  * the modern `init` orchestrator (git check, prompts, stub selection,
    Tailwind-3 special cases, dependency install, remote fetches, config
    write);
  * the legacy `init` orchestrator (upfront Tailwind-config check, per
    project-type layout table, fetch without status check).

External collaborators (file contents on disk, prompt answers, HTTP
responses, the package-manager subprocess exit code) enter as fields of an
environment record, so every run of either orchestrator is a pure function
of its environment.
-/

/-- JavaScript `\s` character class (whitespace as matched by the regex
engine): tab, LF, VT, FF, CR, space, NBSP, and the Unicode space
separators. -/
def jsWs (c : Char) : Bool :=
  c = Char.ofNat 9 || c = Char.ofNat 10 || c = Char.ofNat 11 || c = Char.ofNat 12 ||
  c = Char.ofNat 13 || c = Char.ofNat 32 || c = Char.ofNat 160 || c = Char.ofNat 5760 ||
  (8192 ≤ c.toNat && c.toNat ≤ 8202) || c = Char.ofNat 8232 || c = Char.ofNat 8233 ||
  c = Char.ofNat 8239 || c = Char.ofNat 8287 || c = Char.ofNat 12288 || c = Char.ofNat 65279

/-- JavaScript `String.prototype.trim` on the underlying character list. -/
def jsTrimL (l : List Char) : List Char :=
  ((l.dropWhile jsWs).reverse.dropWhile jsWs).reverse

/-- JavaScript `String.prototype.trim`. -/
def jsTrim (s : String) : String :=
  ⟨jsTrimL s.data⟩

/-- Substring test on character lists: `containsSub pat s` holds when `pat`
occurs contiguously inside `s` (the reading of "the URL contains the
substring ...."). -/
def containsSub (pat : List Char) : List Char → Bool
  | [] => pat.isEmpty
  | c :: rest => pat.isPrefixOf (c :: rest) || containsSub pat rest

theorem isPrefixOf_append_self (xs ys : List Char) : xs.isPrefixOf (xs ++ ys) = true := by
  induction xs with
  | nil => simp [List.isPrefixOf]
  | cons a as ih => simp [List.isPrefixOf, ih]

theorem containsSub_self_append (pat ys : List Char) :
    containsSub pat (pat ++ ys) = true := by
  cases pat with
  | nil =>
    cases ys with
    | nil => simp [containsSub]
    | cons b bs => simp [containsSub, List.isPrefixOf]
  | cons p pr =>
    show containsSub (p :: pr) (p :: (pr ++ ys)) = true
    simp only [containsSub, Bool.or_eq_true]
    left
    exact isPrefixOf_append_self (p :: pr) ys

theorem containsSub_append_mid (pat xs ys : List Char) :
    containsSub pat (xs ++ pat ++ ys) = true := by
  induction xs with
  | nil => simpa using containsSub_self_append pat ys
  | cons x xs2 ih =>
    show containsSub pat (x :: (xs2 ++ pat ++ ys)) = true
    simp only [containsSub, Bool.or_eq_true]
    right
    exact ih

/-- Decomposing an occurrence over an append: the pattern occurs in the
left part, in the right part, or straddles the boundary. -/
theorem containsSub_append_split {pat : List Char} (A B : List Char)
    (h : containsSub pat (A ++ B) = true) :
    containsSub pat A = true ∨ containsSub pat B = true ∨
      ∃ k, 0 < k ∧ k < pat.length ∧ (pat.take k) <:+ A ∧ (pat.drop k) <+: B := by
  induction A with
  | nil =>
    right; left; simpa using h
  | cons a A2 ih =>
    simp only [List.cons_append, containsSub, Bool.or_eq_true] at h
    rcases h with hpre | hrest
    · -- the pattern is a prefix of (a :: A2) ++ B
      have hpre2 : pat <+: ((a :: A2) ++ B) := by
        have h9 : pat.isPrefixOf ((a :: A2) ++ B) = true := by simpa using hpre
        exact List.isPrefixOf_iff_prefix.mp h9
      rcases hpre2 with ⟨t, ht⟩
      rcases (List.append_eq_append_iff.mp ht) with ⟨a2, ha2, _⟩ | ⟨c2, hc2, hB⟩
      · -- a :: A2 = pat ++ a2 : the whole pattern sits inside A
        left
        have : containsSub pat (pat ++ a2) = true := by
          have := containsSub_append_mid pat [] a2
          simpa using this
        rw [ha2]
        exact this
      · -- pat = (a :: A2) ++ c2
        cases hc : c2 with
        | nil =>
          left
          rw [hc] at hc2
          simp at hc2
          rw [← hc2]
          simpa using containsSub_self_append pat []
        | cons c cs =>
          right; right
          refine ⟨(a :: A2).length, by simp, ?_, ?_, ?_⟩
          · rw [hc2, hc]
            simp
          · rw [hc2, List.take_left]
          · rw [hc2, List.drop_left, hB]
            exact List.prefix_append _ _
    · rcases ih hrest with hA | hB | ⟨k, hk0, hkl, htk, hdk⟩
      · left
        simp [containsSub, hA]
      · right; left; exact hB
      · right; right
        refine ⟨k, hk0, hkl, ?_, hdk⟩
        rcases htk with ⟨w, hw⟩
        exact ⟨a :: w, by simp [← hw]⟩

/- -------------------------------------------------------------------- -/
/- Remote URL builders (src/utils/repo.ts)                              -/
/- -------------------------------------------------------------------- -/

def REPO : String := "https://raw.githubusercontent.com/irsyadadl/justd"

/-- `isTailwind(3) ? "1.x" : "2.x"` -- the branch is a pure function of the
detected Tailwind major version, fixed for the whole run. -/
def branchWorkingOn (tw3 : Bool) : String :=
  if tw3 then "1.x" else "2.x"

def THEMES_URL (tw3 : Bool) : String :=
  REPO ++ "/refs/heads/" ++ branchWorkingOn tw3 ++ "/resources/styles/themes"

/-- `getThemesRepoUrl`: validates the gray against the `availablesGrays`
list (imported from `change-gray`, abstracted as a parameter) and exits on
an invalid gray (modelled as `none`); otherwise returns the themes URL.
The dead `if (!selectedGray)` truthiness check in the source can never
fire for a non-empty template string and is not modelled. -/
def getThemesRepoUrl (availablesGrays : List String) (tw3 : Bool) (gray : String) :
    Option String :=
  if gray ∈ availablesGrays then
    some (THEMES_URL tw3 ++ "/" ++ gray ++ ".css")
  else
    none

/-- `getRepoUrlForComponent`: the component URL omits the `refs/heads/`
segment. The dead `if (!repoUrl)` truthiness check cannot fire. -/
def getRepoUrlForComponent (tw3 : Bool) (componentName : String) : String :=
  REPO ++ "/" ++ branchWorkingOn tw3 ++ "/components/ui/" ++ componentName ++ ".tsx"

/-- `getUtilsFolder`: the utils URL includes the `refs/heads/` segment. -/
def getUtilsFolder (tw3 : Bool) (file : String) : String :=
  REPO ++ "/refs/heads/" ++ branchWorkingOn tw3 ++ "/utils/" ++ file

def refsHeads : List Char := "refs/heads/".data

/- -------------------------------------------------------------------- -/
/- Node path.posix.join (as used with two segments)                     -/
/- -------------------------------------------------------------------- -/

/-- Segment normalization of Node's `normalizeString`: drops empty and `.`
segments, resolves `..` against the accumulated stack (keeping leading
`..` segments only for relative paths). The accumulator is reversed. -/
def normSegs (allowAbove : Bool) : List String → List String → List String
  | acc, [] => acc.reverse
  | acc, s :: rest =>
    if s = "" ∨ s = "." then normSegs allowAbove acc rest
    else if s = ".." then
      match acc with
      | t :: acc2 =>
        if t = ".." then normSegs allowAbove (".." :: t :: acc2) rest
        else normSegs allowAbove acc2 rest
      | [] =>
        if allowAbove then normSegs allowAbove [".."] rest
        else normSegs allowAbove [] rest
    else normSegs allowAbove (s :: acc) rest

/-- Splitting a character list on `/` (the behavior of
`String.prototype.split` / Node's separator scan). -/
def splitSlashL : List Char → List (List Char)
  | [] => [[]]
  | c :: rest =>
    if c = Char.ofNat 47 then [] :: splitSlashL rest
    else
      match splitSlashL rest with
      | h :: t => (c :: h) :: t
      | [] => [[c]]

/-- Join segments with `/` (`Array.prototype.join("/")`). -/
def joinSegs : List String → String
  | [] => ""
  | [s] => s
  | s :: rest => s ++ "/" ++ joinSegs rest

/-- Node `path.posix.normalize`. -/
def posixNormalize (p : String) : String :=
  if p = "" then "."
  else
    let isAbs := p.data.head? = some (Char.ofNat 47)
    let trailing := p.data.getLast? = some (Char.ofNat 47)
    let core := joinSegs (normSegs (!isAbs) [] ((splitSlashL p.data).map String.mk))
    if core = "" then
      if isAbs then "/" else if trailing then "./" else "."
    else
      let core2 := if trailing then core ++ "/" else core
      if isAbs then "/" ++ core2 else core2

/-- Node `path.posix.join` on two segments: concatenate the non-empty
arguments with `/` and normalize (`.` when both are empty). -/
def pathJoin (a b : String) : String :=
  let parts := [a, b].filter (fun s => s ≠ "")
  if parts.isEmpty then "."
  else posixNormalize (String.intercalate "/" parts)

/- -------------------------------------------------------------------- -/
/- JavaScript String.prototype.replace with a plain-string pattern      -/
/- (replaces the first occurrence only)                                 -/
/- -------------------------------------------------------------------- -/

def replaceFirstL (pat rep : List Char) : List Char → List Char
  | [] => []
  | c :: rest =>
    if pat.isPrefixOf (c :: rest) then rep ++ (c :: rest).drop pat.length
    else c :: replaceFirstL pat rep rest

/-- JavaScript `s.replace(pat, rep)` for a string pattern: only the first
occurrence is replaced. -/
def replaceFirst (s pat rep : String) : String :=
  ⟨replaceFirstL pat.data rep.data s.data⟩

/- -------------------------------------------------------------------- -/
/- The Laravel client-directive strip:                                  -/
/-   fileContent.replace(/['"]use client['"]\s*\n?/g, "")               -/
/- -------------------------------------------------------------------- -/

def isQuoteChar (c : Char) : Bool :=
  c = Char.ofNat 39 || c = Char.ofNat 34

def useClientLit : List Char := "use client".data

/-- Greedy `\s*` of the regex: consumes the longest run of JavaScript
whitespace (which includes newlines, so the trailing `\n?` of the pattern
always matches empty after it). -/
def dropWs : List Char → List Char
  | [] => []
  | c :: rest => if jsWs c then dropWs rest else c :: rest

/-- One attempt of the regex `['"]use client['"]\s*\n?` at the head of the
input; on success returns the rest of the input after the match. -/
def matchUseClient (cs : List Char) : Option (List Char) :=
  match cs with
  | [] => none
  | c1 :: rest =>
    if isQuoteChar c1 && useClientLit.isPrefixOf rest then
      match rest.drop useClientLit.length with
      | [] => none
      | c2 :: rest2 => if isQuoteChar c2 then some (dropWs rest2) else none
    else none

theorem dropWs_length_le (l : List Char) : (dropWs l).length ≤ l.length := by
  induction l with
  | nil => simp [dropWs]
  | cons c rest ih =>
    simp only [dropWs]
    split
    · exact Nat.le_trans ih (Nat.le_succ _)
    · simp

theorem matchUseClient_some_length {cs rem : List Char}
    (h : matchUseClient cs = some rem) : rem.length < cs.length := by
  match cs with
  | [] => simp [matchUseClient] at h
  | c1 :: rest =>
    simp only [matchUseClient] at h
    split at h
    · rename_i hcond
      split at h
      · exact absurd h (by simp)
      · rename_i c2 rest2 hdrop
        split at h
        · have hrem : rem = dropWs rest2 := by
            cases h
            rfl
          have h1 : (rest.drop useClientLit.length).length = rest2.length + 1 := by
            rw [hdrop]
            rfl
          have h2 : (rest.drop useClientLit.length).length ≤ rest.length := by
            simp
          have h3 : rest2.length < rest.length := by omega
          have h4 : rem.length ≤ rest2.length := by
            rw [hrem]
            exact dropWs_length_le rest2
          simp only [List.length_cons]
          omega
        · exact absurd h (by simp)
    · exact absurd h (by simp)

/-- Fuel-indexed scan of the global replace: scans left to right;
wherever the pattern matches it is removed and scanning resumes after the
match (JavaScript `g`-flag semantics, non-overlapping). Since every match
consumes at least one character, fuel equal to the input length always
suffices, so the fuel never runs out in `stripLoop`. -/
def stripLoopF : Nat → List Char → List Char
  | _, [] => []
  | 0, cs => cs
  | fuel + 1, c :: rest =>
    match matchUseClient (c :: rest) with
    | some rem => stripLoopF fuel rem
    | none => c :: stripLoopF fuel rest

/-- The global replace of the regex with the empty string. -/
def stripLoop (cs : List Char) : List Char :=
  stripLoopF cs.length cs

theorem stripLoopF_congr :
    ∀ (f1 : Nat) (f2 : Nat) (cs : List Char), cs.length ≤ f1 → cs.length ≤ f2 →
      stripLoopF f1 cs = stripLoopF f2 cs := by
  intro f1
  induction f1 using Nat.strong_induction_on with
  | _ f1 ih =>
    intro f2 cs h1 h2
    match cs, f1, f2 with
    | [], _, _ => simp [stripLoopF]
    | c :: rest, 0, _ => simp at h1
    | c :: rest, _, 0 => simp at h2
    | c :: rest, g1 + 1, g2 + 1 =>
      simp only [stripLoopF]
      cases hm : matchUseClient (c :: rest) with
      | some rem =>
        have hlt := matchUseClient_some_length hm
        simp only [List.length_cons] at h1 h2 hlt
        exact ih g1 (by omega) g2 rem (by omega) (by omega)
      | none =>
        simp only [List.length_cons] at h1 h2
        have := ih g1 (by omega) g2 rest (by omega) (by omega)
        rw [this]

theorem stripLoop_match_some {cs rem : List Char} (h : matchUseClient cs = some rem) :
    stripLoop cs = stripLoop rem := by
  match cs with
  | [] => simp [matchUseClient] at h
  | c :: rest =>
    have hlt := matchUseClient_some_length h
    simp only [List.length_cons] at hlt
    show stripLoopF (c :: rest).length (c :: rest) = stripLoop rem
    simp only [List.length_cons, stripLoopF, h]
    exact stripLoopF_congr rest.length rem.length rem (by omega) (by omega)

theorem stripLoop_match_none {c : Char} {rest : List Char}
    (h : matchUseClient (c :: rest) = none) :
    stripLoop (c :: rest) = c :: stripLoop rest := by
  show stripLoopF (c :: rest).length (c :: rest) = c :: stripLoop rest
  simp only [List.length_cons, stripLoopF, h, stripLoop]

/-- `fileContent.replace(/['"]use client['"]\s*\n?/g, "")` -- the
transform the modern `init` applies to the fetched component text when
the target framework is Laravel. -/
def stripUseClient (s : String) : String :=
  ⟨stripLoop s.data⟩

/- -------------------------------------------------------------------- -/
/- Interactive prompt (external collaborator) and the init validator    -/
/- -------------------------------------------------------------------- -/

/-- The `validate` callback the modern `init` passes to every path prompt:
`(value) => value.trim() !== "" || "Path cannot be empty. ..."` (the
truthy string branch means "rejected"). -/
def initValidate (value : String) : Bool :=
  jsTrim value ≠ ""

/-- The `@inquirer/prompts` `input` collaborator: the user submits answers
in order; an empty submission means the shown default; a submission whose
validation fails is rejected and the prompt re-requests the next answer.
`none` models a session where no submitted value ever validates. -/
def runInput (default : String) (validate : String → Bool) : List String → Option String
  | [] => none
  | a :: rest =>
    let v := if a = "" then default else a
    if validate v then some v else runInput default validate rest

/- -------------------------------------------------------------------- -/
/- The modern init orchestrator (second document in repo.ts)            -/
/- -------------------------------------------------------------------- -/

/-- The outcome of one remote `fetch` that produced a response. -/
structure FetchResp where
  ok : Bool
  statusText : String
  body : String
deriving DecidableEq, Repr

/-- The environment of a modern `init` run: CLI flags, prober answers,
prompt sessions, stub file contents, and the behavior of the external
collaborators (subprocess, HTTP). A `none` fetch models a network
failure (the promise rejects); `some r` models a response `r` of any
status. -/
structure Env where
  projectExists : Bool
  force : Bool
  yes : Bool
  repoDirty : Bool
  twInstalled : Bool
  tw3 : Bool
  nextjs : Bool
  laravel : Bool
  remix : Bool
  hasSrc : Bool
  twConfigJsExists : Bool
  componentsAnswers : List String
  utilsAnswers : List String
  cssAnswers : List String
  defaultComponentsPath : String
  defaultUtilsPath : String
  defaultCssPath : String
  fileContent : String → String
  aliasOutcome : Option (Option String)
  changeGrayResult : String
  installExitCode : Int
  componentFetch : Option FetchResp
  classesFetch : Option FetchResp

/-- The resolved layout of the modern `init`: the components folder, the
`ui` subfolder, the utils folder, and the CSS file location. -/
structure Layout where
  componentFolder : String
  uiFolder : String
  utilsFolder : String
  cssLocation : String
deriving DecidableEq, Repr

/-- The three stub identifiers selected for the detected framework. -/
structure Stubs where
  twConfig : String
  themeProvider : String
  providers : String
deriving DecidableEq, Repr

/-- The `justd.json` record the modern `init` persists (`aliasKey` stands
for the source field `alias`, a reserved word here). -/
structure ConfigRec where
  ui : String
  utils : String
  gray : String
  css : String
  aliasKey : Option String
deriving DecidableEq, Repr

/-- How a modern `init` run ends. `thrown` is an uncaught exception
(the failed component fetch); `netError` is a rejected fetch promise;
`done cfg` means the run reached the `configManager.createConfig(cfg)`
call and finished. -/
inductive Outcome where
  | newProject
  | dirtyAbort
  | noTailwind
  | promptBlocked
  | aliasAbort
  | netError
  | thrown (msg : String)
  | done (cfg : ConfigRec)
deriving DecidableEq, Repr

/-- The observable trace of a modern `init` run: how it ended, every file
write `(path, content)` it performed in order, and whether the
`changeGray` theme-selection step and the install/fetch steps ran. -/
structure RunResult where
  outcome : Outcome
  writes : List (String × String)
  changeGrayInvoked : Bool
  installRan : Bool
  componentFetchAttempted : Bool
deriving DecidableEq, Repr

/-- Layout resolution of the modern `init`: with `--yes` the defaults
(`possibility*Path()` helpers) are taken as they are; otherwise each of
the three paths is prompted with the non-empty validator, and
`uiFolder = path.join(componentFolder, "ui")` in both branches. -/
def modernLayout (env : Env) : Option Layout :=
  if env.yes then
    some ⟨env.defaultComponentsPath, pathJoin env.defaultComponentsPath "ui",
          env.defaultUtilsPath, env.defaultCssPath⟩
  else
    match runInput env.defaultComponentsPath initValidate env.componentsAnswers,
          runInput env.defaultUtilsPath initValidate env.utilsAnswers,
          runInput env.defaultCssPath initValidate env.cssAnswers with
    | some cf, some uf, some cl => some ⟨cf, pathJoin cf "ui", uf, cl⟩
    | _, _, _ => none

/-- Stub selection of the modern `init` (the five-way `if` chain keyed on
`isNextJs`, `hasFolder("src")`, `isLaravel`, `isRemix`). Paths are
relative to the bundled `stubs` directory. -/
def stubSelection (env : Env) : Stubs :=
  if env.nextjs && env.hasSrc then
    ⟨"1.x/tailwind.config.src.next.stub", "next/theme-provider.stub", "next/providers.stub"⟩
  else if env.nextjs && !env.hasSrc then
    ⟨"1.x/tailwind.config.next.stub", "next/theme-provider.stub", "next/providers.stub"⟩
  else if env.laravel then
    ⟨"1.x/tailwind.config.laravel.stub", "laravel/theme-provider.stub", "laravel/providers.stub"⟩
  else if env.remix then
    ⟨"1.x/tailwind.config.vite.stub", "remix/theme-provider.stub", "remix/providers.stub"⟩
  else
    ⟨"1.x/tailwind.config.vite.stub", "next/theme-provider.stub", "next/providers.stub"⟩

/-- The Tailwind-3 config-stub write of the modern `init`: the target is
`tailwind.config.js` when that file exists and `tailwind.config.ts`
otherwise (no existence check of the latter). -/
def twConfigWrites (env : Env) : List (String × String) :=
  if env.tw3 then
    [((if env.twConfigJsExists then "tailwind.config.js" else "tailwind.config.ts"),
      env.fileContent (stubSelection env).twConfig)]
  else []

/-- The part of the modern `init` after the tsconfig alias step succeeded
with alias `currentAlias` and layout `L`: the Tailwind-3 zinc stub copy
and gray selection, the awaited install subprocess (exit code ignored),
the component fetch (aborting on a non-ok response with the status text,
with the Laravel strip applied to the body), the `classes.ts` fetch
(whose response status is never inspected), the theme-provider/providers
stub writes, and the final `justd.json` write. -/
def initTail (env : Env) (L : Layout) (currentAlias : Option String) : RunResult :=
  let stubsSel := stubSelection env
  let writes1 := twConfigWrites env ++
    (if env.tw3 then [(L.cssLocation, env.fileContent "1.x/zinc.css")] else [])
  let grayInvoked := !env.tw3
  let selectedGray := if env.tw3 then "zinc.css" else env.changeGrayResult
  let cfg : ConfigRec :=
    ⟨L.uiFolder, L.utilsFolder, replaceFirst selectedGray ".css" "",
     L.cssLocation, currentAlias⟩
  match env.componentFetch with
  | none => ⟨.netError, writes1, grayInvoked, true, true⟩
  | some resp =>
    if !resp.ok then
      ⟨.thrown ("Failed to fetch component: " ++ resp.statusText),
       writes1, grayInvoked, true, true⟩
    else
      let written := if env.laravel then stripUseClient resp.body else resp.body
      let writes2 := writes1 ++
        [(pathJoin L.uiFolder "primitive.tsx", written),
         (pathJoin L.uiFolder "index.ts", "export * from \x27./primitive\x27;")]
      match env.classesFetch with
      | none => ⟨.netError, writes2, grayInvoked, true, true⟩
      | some respClasses =>
        let writes3 := writes2 ++
          [(pathJoin L.utilsFolder "classes.ts", respClasses.body)]
        let writes4 := writes3 ++
          [(pathJoin L.componentFolder "theme-provider.tsx",
            env.fileContent stubsSel.themeProvider),
           (pathJoin L.componentFolder "providers.tsx",
            env.fileContent stubsSel.providers)]
        ⟨.done cfg, writes4, grayInvoked, true, true⟩

/-- The modern `init` orchestrator as a pure function of its environment.
It mirrors, in order: the project-existence check, the git-cleanliness
check (skipped under `--force`), the Tailwind-installed check, layout
resolution, stub selection, the Tailwind-3 config write, the tsconfig
alias step (aborting when it exits), and then `initTail`. -/
def init (env : Env) : RunResult :=
  if !env.projectExists then ⟨.newProject, [], false, false, false⟩
  else if !env.force && env.repoDirty then ⟨.dirtyAbort, [], false, false, false⟩
  else if !env.twInstalled then ⟨.noTailwind, [], false, false, false⟩
  else
    match modernLayout env with
    | none => ⟨.promptBlocked, [], false, false, false⟩
    | some L =>
      match env.aliasOutcome with
      | none => ⟨.aliasAbort, twConfigWrites env, false, false, false⟩
      | some currentAlias => initTail env L currentAlias

/- -------------------------------------------------------------------- -/
/- The legacy init orchestrator (third document in repo.ts)             -/
/- -------------------------------------------------------------------- -/

/-- Project type selected interactively in the legacy `init`. -/
inductive ProjectType where
  | nextjs
  | laravel
  | vite
  | other
deriving DecidableEq, Repr

/-- Environment of a legacy `init` run. -/
structure LegacyEnv where
  twConfigJsExists : Bool
  twConfigTsExists : Bool
  projectType : ProjectType
  nextHasSrcAnswer : Bool
  otherComponentsAnswers : List String
  otherCssAnswers : List String
  cssStubExists : Bool
  configStubExists : Bool
  fileContent : String → String
  installExitCode : Int
  componentFetch : Option FetchResp

/-- Resolved layout of the legacy `init` (per project type). `providers`
is absent for Vite only. -/
structure LegacyLayout where
  componentsFolder : String
  uiFolder : String
  cssLocation : String
  configSourcePath : String
  themeProvider : String
  providers : Option String
deriving DecidableEq, Repr

/-- How a legacy `init` run ends. `missingConfigStub` models the early
`return` when the bundled config stub is absent; `done ui` records the
`justd.json` content `{$schema: "https://getjustd.com", ui}`. -/
inductive LegacyOutcome where
  | noTailwindConfig
  | promptBlocked
  | missingConfigStub
  | netError
  | done (ui : String)
deriving DecidableEq, Repr

/-- Observable trace of a legacy `init` run. -/
structure LegacyRunResult where
  outcome : LegacyOutcome
  writes : List (String × String)
  installRan : Bool
  componentFetchAttempted : Bool
deriving DecidableEq, Repr

/-- The legacy `init` layout table (`cssPath` record plus the four-way
branch on the selected project type). The two `Other` prompts carry no
validator, so every submitted answer is accepted (empty submissions take
the default). -/
def legacyResolve (pt : ProjectType) (nextHasSrcAnswer : Bool)
    (componentsAnswers cssAnswers : List String) : Option LegacyLayout :=
  match pt with
  | .laravel =>
    some ⟨"resources/js/components", pathJoin "resources/js/components" "ui",
          "resources/css/app.css", "laravel/tailwind.config.laravel.stub",
          "laravel/theme-provider.stub", some "laravel/providers.stub"⟩
  | .vite =>
    some ⟨"src/components", pathJoin "src/components" "ui", "src/index.css",
          "vite/tailwind.config.vite.stub", "vite/theme-provider.stub", none⟩
  | .nextjs =>
    let hasSrc := if nextHasSrcAnswer then "src" else ""
    let componentsFolder := pathJoin hasSrc "components"
    some ⟨componentsFolder, pathJoin componentsFolder "ui",
          (if nextHasSrcAnswer then "src/app/globals.css" else "app/globals.css"),
          "next/tailwind.config.next.stub", "next/theme-provider.stub",
          some "next/providers.stub"⟩
  | .other =>
    match runInput "components" (fun _ => true) componentsAnswers with
    | none => none
    | some componentsFolder =>
      match runInput "styles/app.css" (fun _ => true) cssAnswers with
      | none => none
      | some cssLocation =>
        some ⟨componentsFolder, pathJoin componentsFolder "ui", cssLocation,
              "next/tailwind.config.next.stub", "next/theme-provider.stub",
              some "next/providers.stub"⟩

/-- The legacy `init` orchestrator as a pure function of its environment.
It mirrors, in order: the upfront check that `tailwind.config.js` or
`tailwind.config.ts` exists (aborting before any write when neither
does), project-type selection and layout resolution, the CSS stub copy
(skipped with a warning when the bundled stub is absent), the Tailwind
config write to whichever conventional filename exists (defaulting to
`tailwind.config.ts`), with an early return when the bundled config stub
is absent, the awaited install subprocess (exit code ignored), the
component fetch whose response status is never inspected, the
theme-provider/providers stub copies, and the `justd.json` write. -/
def legacyInit (env : LegacyEnv) : LegacyRunResult :=
  if !env.twConfigJsExists && !env.twConfigTsExists then
    ⟨.noTailwindConfig, [], false, false⟩
  else
    match legacyResolve env.projectType env.nextHasSrcAnswer
        env.otherComponentsAnswers env.otherCssAnswers with
    | none => ⟨.promptBlocked, [], false, false⟩
    | some L =>
      let writes0 : List (String × String) :=
        if env.cssStubExists then [(L.cssLocation, env.fileContent "tailwind-css/app.css")]
        else []
      if !env.configStubExists then ⟨.missingConfigStub, writes0, false, false⟩
      else
        let target := if env.twConfigJsExists then "tailwind.config.js" else "tailwind.config.ts"
        let writes1 := writes0 ++ [(target, env.fileContent L.configSourcePath)]
        match env.componentFetch with
        | none => ⟨.netError, writes1, true, true⟩
        | some resp =>
          let writes2 := writes1 ++ [(pathJoin L.uiFolder "primitive.tsx", resp.body)]
          let writes3 := writes2 ++
            [(pathJoin L.componentsFolder "theme-provider.tsx",
              env.fileContent L.themeProvider)] ++
            (match L.providers with
             | some p => [(pathJoin L.componentsFolder "providers.tsx", env.fileContent p)]
             | none => [])
          ⟨.done L.uiFolder, writes3, true, true⟩

/- -------------------------------------------------------------------- -/
/- Concrete environments used to instantiate the theorems               -/
/- -------------------------------------------------------------------- -/

/-- A fully successful modern run: Next.js project with a `src` folder,
Tailwind 4, clean tree, `--yes` mode, both fetches succeed. -/
def envBase : Env where
  projectExists := true
  force := false
  yes := true
  repoDirty := false
  twInstalled := true
  tw3 := false
  nextjs := true
  laravel := false
  remix := false
  hasSrc := true
  twConfigJsExists := true
  componentsAnswers := []
  utilsAnswers := []
  cssAnswers := []
  defaultComponentsPath := "src/components"
  defaultUtilsPath := "src/utils"
  defaultCssPath := "src/app/globals.css"
  fileContent := fun p => "stub:" ++ p
  aliasOutcome := some (some "@")
  changeGrayResult := "slate.css"
  installExitCode := 0
  componentFetch := some ⟨true, "OK", "component-source"⟩
  classesFetch := some ⟨true, "OK", "classes-source"⟩

/-- The layout `envBase` resolves to. -/
def layoutBase : Layout :=
  ⟨"src/components", "src/components/ui", "src/utils", "src/app/globals.css"⟩

/-- A fully successful legacy run: Laravel project, both conventional
Tailwind config filenames present, all bundled stubs present. -/
def legacyEnvBase : LegacyEnv where
  twConfigJsExists := true
  twConfigTsExists := true
  projectType := .laravel
  nextHasSrcAnswer := true
  otherComponentsAnswers := []
  otherCssAnswers := []
  cssStubExists := true
  configStubExists := true
  fileContent := fun p => "stub:" ++ p
  installExitCode := 0
  componentFetch := some ⟨true, "OK", "component-source"⟩

/- -------------------------------------------------------------------- -/
/- Claims                                                               -/
/- -------------------------------------------------------------------- -/

/-- Claim C2: resolving the legacy layout with no user overrides yields
exactly the defaults of the spec table, for each supported framework:
Laravel gives `resources/js/components` and `resources/css/app.css`;
Remix/Vite gives `src/components` and `src/index.css`; Next.js with a
`src` directory gives `src/components` and `src/app/globals.css`;
Next.js without one gives `components` and `app/globals.css`; Other
gives `components` and `styles/app.css` (for Other the paths are prompt
defaults, accepted by submitting empty input). -/
theorem claim_C2_default_layout_table :
    (∃ L, legacyResolve .laravel true [] [] = some L ∧
      L.componentsFolder = "resources/js/components" ∧ L.cssLocation = "resources/css/app.css") ∧
    (∃ L, legacyResolve .vite true [] [] = some L ∧
      L.componentsFolder = "src/components" ∧ L.cssLocation = "src/index.css") ∧
    (∃ L, legacyResolve .nextjs true [] [] = some L ∧
      L.componentsFolder = "src/components" ∧ L.cssLocation = "src/app/globals.css") ∧
    (∃ L, legacyResolve .nextjs false [] [] = some L ∧
      L.componentsFolder = "components" ∧ L.cssLocation = "app/globals.css") ∧
    (∃ L, legacyResolve .other true [""] [""] = some L ∧
      L.componentsFolder = "components" ∧ L.cssLocation = "styles/app.css") := by
  refine ⟨⟨_, rfl, rfl, rfl⟩, ⟨_, rfl, rfl, rfl⟩, ⟨_, rfl, rfl, rfl⟩,
    ⟨_, rfl, rfl, rfl⟩, ⟨_, rfl, rfl, rfl⟩⟩

/-- Claim C9: in every resolved layout -- the modern resolver under any
environment and any accepted overrides, and the legacy resolver for every
project type and prompt session -- the `ui` folder is exactly the
components folder joined with the literal segment `ui`; no code path
accepts an independent `uiFolder`. -/
theorem claim_C9_uiFolder_join :
    (∀ (env : Env) (L : Layout), modernLayout env = some L →
      L.uiFolder = pathJoin L.componentFolder "ui") ∧
    (∀ (pt : ProjectType) (b : Bool) (ca cssa : List String) (L : LegacyLayout),
      legacyResolve pt b ca cssa = some L →
      L.uiFolder = pathJoin L.componentsFolder "ui") := by
  constructor
  · intro env L h
    unfold modernLayout at h
    split at h
    · injection h with h2
      subst h2
      rfl
    · split at h
      · injection h with h2
        subst h2
        rfl
      · exact Option.noConfusion h
  · intro pt b ca cssa L h
    cases pt with
    | laravel =>
      injection h with h2
      subst h2
      rfl
    | vite =>
      injection h with h2
      subst h2
      rfl
    | nextjs =>
      simp only [legacyResolve] at h
      injection h with h2
      subst h2
      rfl
    | other =>
      simp only [legacyResolve] at h
      split at h
      · exact Option.noConfusion h
      · split at h
        · exact Option.noConfusion h
        · injection h with h2
          subst h2
          rfl

/-- Witness for C9 at a concrete input: `envBase` resolves and its layout
satisfies the invariant. -/
theorem claim_C9_uiFolder_join_witness :
    modernLayout envBase = some layoutBase ∧
    layoutBase.uiFolder = pathJoin layoutBase.componentFolder "ui" :=
  ⟨by decide, claim_C9_uiFolder_join.1 envBase layoutBase (by decide)⟩

theorem initTail_flags (env : Env) (L : Layout) (a : Option String) :
    (initTail env L a).installRan = true ∧
    (initTail env L a).componentFetchAttempted = true := by
  unfold initTail
  cases env.componentFetch with
  | none => simp
  | some resp =>
    by_cases hok : resp.ok
    · simp only [hok, Bool.not_true]
      cases env.classesFetch with
      | none => simp
      | some respClasses => simp
    · simp only [Bool.not_eq_true] at hok
      simp [hok]

theorem initTail_outcome_not_dirty (env : Env) (L : Layout) (a : Option String) :
    (initTail env L a).outcome ≠ .dirtyAbort := by
  unfold initTail
  cases env.componentFetch with
  | none => simp
  | some resp =>
    by_cases hok : resp.ok
    · simp only [hok, Bool.not_true]
      cases env.classesFetch with
      | none => simp
      | some respClasses => simp
    · simp only [Bool.not_eq_true] at hok
      simp [hok]

/-- Claim C8: when a project exists and the working tree is dirty, a run
without the force flag stops at the git-cleanliness check with the dirty
abort (modelled after `process.exit(1)`) and performs no writes; with the
force flag the check is skipped and no run ever ends in the dirty
abort. -/
theorem claim_C8_git_cleanliness :
    (∀ env : Env, env.projectExists = true → env.force = false → env.repoDirty = true →
      init env = ⟨.dirtyAbort, [], false, false, false⟩) ∧
    (∀ env : Env, env.force = true → (init env).outcome ≠ .dirtyAbort) := by
  constructor
  · intro env h1 h2 h3
    unfold init
    simp [h1, h2, h3]
  · intro env hf
    unfold init
    simp only [hf, Bool.not_true, Bool.false_and, Bool.false_eq_true, if_false]
    split
    · simp
    · split
      · simp
      · split
        · simp
        · split
          · simp
          · exact initTail_outcome_not_dirty env _ _

/-- Witness for C8: a dirty tree without force aborts; with force the
same dirty environment does not end in the dirty abort. -/
theorem claim_C8_git_cleanliness_witness :
    init { envBase with repoDirty := true } = ⟨.dirtyAbort, [], false, false, false⟩ ∧
    (init { envBase with repoDirty := true, force := true }).outcome ≠ .dirtyAbort :=
  ⟨claim_C8_git_cleanliness.1 { envBase with repoDirty := true } rfl rfl rfl,
   claim_C8_git_cleanliness.2 { envBase with repoDirty := true, force := true } rfl⟩

/-- Claim C10 (implicit): the exit code of the awaited package-manager
install subprocess is never inspected -- the whole observable run of
either orchestrator is independent of it -- and whenever the install step
ran, the component fetch that follows it is attempted, for every exit
code including failures. -/
theorem claim_C10_install_exit_ignored :
    (∀ (env : Env) (c : Int), init { env with installExitCode := c } = init env) ∧
    (∀ env : Env, (init env).installRan = true → (init env).componentFetchAttempted = true) ∧
    (∀ (env : LegacyEnv) (c : Int),
      legacyInit { env with installExitCode := c } = legacyInit env) ∧
    (∀ env : LegacyEnv, (legacyInit env).installRan = true →
      (legacyInit env).componentFetchAttempted = true) := by
  refine ⟨?_, ?_, ?_, ?_⟩
  · intro env c
    cases env
    rfl
  · intro env
    unfold init
    split
    · simp
    · split
      · simp
      · split
        · simp
        · split
          · simp
          · split
            · simp
            · intro _
              exact (initTail_flags env _ _).2
  · intro env c
    cases env
    rfl
  · intro env
    unfold legacyInit
    split
    · simp
    · split
      · simp
      · split
        · split
          · simp
          · cases henv : env.componentFetch with
            | none => simp [henv]
            | some resp => simp [henv]
        · split
          · simp
          · cases henv : env.componentFetch with
            | none => simp [henv]
            | some resp => simp [henv]

/-- Witness for C10: with a failing exit code the run still reaches the
fetch step. -/
theorem claim_C10_install_exit_ignored_witness :
    init { envBase with installExitCode := 1 } = init envBase ∧
    ((init envBase).installRan = true → (init envBase).componentFetchAttempted = true) :=
  ⟨claim_C10_install_exit_ignored.1 envBase 1,
   claim_C10_install_exit_ignored.2.1 envBase⟩

/-- A run whose preconditions all pass reduces to the tail after the
alias step. -/
theorem init_reached (env : Env) (L : Layout) (a : Option String)
    (h1 : env.projectExists = true) (h2 : env.force = true ∨ env.repoDirty = false)
    (h3 : env.twInstalled = true) (h4 : modernLayout env = some L)
    (h5 : env.aliasOutcome = some a) :
    init env = initTail env L a := by
  have hgit : (!env.force && env.repoDirty) = false := by
    rcases h2 with h | h <;> simp [h]
  unfold init
  simp [h1, h3, hgit, h4, h5]

theorem zinc_gray_value : replaceFirst "zinc.css" ".css" "" = "zinc" := rfl

/-- Claim C7: in a run that reaches the CSS step, Tailwind major 3 skips
the interactive `changeGray` theme-selection step, copies the bundled
`1.x/zinc.css` stub verbatim to the resolved CSS location, and persists
`gray = "zinc"`; with major 4+ the `changeGray` step runs and the
persisted gray comes from its result, never from the zinc special
case. -/
theorem claim_C7_zinc_special_case :
    ∀ (env : Env) (L : Layout) (a : Option String),
      env.projectExists = true → (env.force = true ∨ env.repoDirty = false) →
      env.twInstalled = true → modernLayout env = some L → env.aliasOutcome = some a →
      ((env.tw3 = true →
          (init env).changeGrayInvoked = false ∧
          (L.cssLocation, env.fileContent "1.x/zinc.css") ∈ (init env).writes ∧
          ∀ cfg, (init env).outcome = .done cfg → cfg.gray = "zinc") ∧
       (env.tw3 = false →
          (init env).changeGrayInvoked = true ∧
          ∀ cfg, (init env).outcome = .done cfg →
            cfg.gray = replaceFirst env.changeGrayResult ".css" "")) := by
  intro env L a h1 h2 h3 h4 h5
  rw [init_reached env L a h1 h2 h3 h4 h5]
  unfold initTail
  constructor
  · intro htw
    cases env.componentFetch with
    | none =>
      refine ⟨by simp [htw], by simp [htw], ?_⟩
      intro cfg hcfg
      simp at hcfg
    | some resp =>
      by_cases hok : resp.ok
      · simp only [hok, Bool.not_true]
        cases env.classesFetch with
        | none =>
          refine ⟨by simp [htw], by simp [htw], ?_⟩
          intro cfg hcfg
          simp at hcfg
        | some respClasses =>
          refine ⟨by simp [htw], by simp [htw], ?_⟩
          intro cfg hcfg
          simp at hcfg
          subst hcfg
          simp [htw, zinc_gray_value]
      · simp only [Bool.not_eq_true] at hok
        refine ⟨by simp [htw, hok], by simp [htw, hok], ?_⟩
        intro cfg hcfg
        simp [hok] at hcfg
  · intro htw
    cases env.componentFetch with
    | none =>
      refine ⟨by simp [htw], ?_⟩
      intro cfg hcfg
      simp at hcfg
    | some resp =>
      by_cases hok : resp.ok
      · simp only [hok, Bool.not_true]
        cases env.classesFetch with
        | none =>
          refine ⟨by simp [htw], ?_⟩
          intro cfg hcfg
          simp at hcfg
        | some respClasses =>
          refine ⟨by simp [htw], ?_⟩
          intro cfg hcfg
          simp at hcfg
          subst hcfg
          simp [htw]
      · simp only [Bool.not_eq_true] at hok
        refine ⟨by simp [htw, hok], ?_⟩
        intro cfg hcfg
        simp [hok] at hcfg

/-- Witness for C7: a concrete Tailwind-3 run copies the zinc stub and
persists gray `zinc`; the matching Tailwind-4 run invokes `changeGray`. -/
theorem claim_C7_zinc_special_case_witness :
    ((init { envBase with tw3 := true }).changeGrayInvoked = false ∧
      ("src/app/globals.css", "stub:1.x/zinc.css") ∈ (init { envBase with tw3 := true }).writes ∧
      ∀ cfg, (init { envBase with tw3 := true }).outcome = .done cfg → cfg.gray = "zinc") ∧
    ((init envBase).changeGrayInvoked = true ∧
      ∀ cfg, (init envBase).outcome = .done cfg →
        cfg.gray = replaceFirst envBase.changeGrayResult ".css" "") := by
  constructor
  · have h := (claim_C7_zinc_special_case { envBase with tw3 := true } layoutBase (some "@")
      rfl (Or.inr rfl) rfl (by decide) rfl).1 rfl
    exact h
  · have h := (claim_C7_zinc_special_case envBase layoutBase (some "@")
      rfl (Or.inr rfl) rfl (by decide) rfl).2 rfl
    exact h

theorem runInput_some_valid (d : String) (v : String → Bool) (ans : List String)
    (r : String) (h : runInput d v ans = some r) : v r = true := by
  induction ans with
  | nil => simp [runInput] at h
  | cons a rest ih =>
    simp only [runInput] at h
    split at h
    · split at h
      · rename_i hv
        injection h with h2
        subst h2
        exact hv
      · exact ih h
    · split at h
      · rename_i hv
        injection h with h2
        subst h2
        exact hv
      · exact ih h

/-- Claim C6: every path field of the modern `init` (components folder,
utils folder, CSS file location) is validated non-empty: a resolved
layout in interactive mode never carries a value whose trim is empty, a
submitted override whose effective value trims to empty is rejected and
the prompt moves on to the next submission, and a submission with
non-blank content is accepted as-is, taking precedence over the shown
default. -/
theorem claim_C6_nonempty_overrides :
    (∀ (env : Env) (L : Layout), env.yes = false → modernLayout env = some L →
      jsTrim L.componentFolder ≠ "" ∧ jsTrim L.utilsFolder ≠ "" ∧ jsTrim L.cssLocation ≠ "") ∧
    (∀ (d a : String) (rest : List String), jsTrim (if a = "" then d else a) = "" →
      runInput d initValidate (a :: rest) = runInput d initValidate rest) ∧
    (∀ (d a : String) (rest : List String), jsTrim a ≠ "" →
      runInput d initValidate (a :: rest) = some a) := by
  refine ⟨?_, ?_, ?_⟩
  · intro env L hyes h
    unfold modernLayout at h
    rw [if_neg (by simp [hyes])] at h
    split at h
    · rename_i cf uf cl hcf huf hcl
      injection h with h2
      subst h2
      refine ⟨?_, ?_, ?_⟩
      · simpa [initValidate] using runInput_some_valid _ _ _ _ hcf
      · simpa [initValidate] using runInput_some_valid _ _ _ _ huf
      · simpa [initValidate] using runInput_some_valid _ _ _ _ hcl
    · exact Option.noConfusion h
  · intro d a rest h
    simp only [runInput, initValidate]
    rw [if_neg]
    simp [h]
  · intro d a rest h
    have ha : a ≠ "" := by
      intro hempty
      subst hempty
      exact h rfl
    simp only [runInput, initValidate]
    rw [if_neg ha, if_pos]
    simp [h]

/-- Witness for C6: a whitespace-only components answer is rejected and
the following non-empty answer wins; an empty utils answer falls back to
the validated default; the resolved layout has no blank field. -/
theorem claim_C6_nonempty_overrides_witness :
    (jsTrim layoutBase.componentFolder ≠ "" ∧ jsTrim layoutBase.utilsFolder ≠ "" ∧
      jsTrim layoutBase.cssLocation ≠ "") ∧
    runInput "src/utils" initValidate ("  " :: ["src/utils"]) =
      runInput "src/utils" initValidate ["src/utils"] ∧
    runInput "components" initValidate ("src/components" :: []) = some "src/components" := by
  refine ⟨?_, ?_, ?_⟩
  · exact claim_C6_nonempty_overrides.1
      { envBase with
          yes := false
          componentsAnswers := ["  ", "src/components"]
          utilsAnswers := [""]
          cssAnswers := ["src/app/globals.css"] }
      layoutBase rfl (by decide)
  · exact claim_C6_nonempty_overrides.2.1 "src/utils" "  " ["src/utils"] (by decide)
  · exact claim_C6_nonempty_overrides.2.2 "components" "src/components" [] (by decide)

/-- Counterexample to claim C1: in a fully healthy run whose `classes.ts`
fetch returns HTTP 404 (`ok = false`, body `404: Not Found`), the run
does not abort: the 404 body is written to `classes.ts` and the
configuration is still persisted -- refuting ».. a non-2xx HTTP response
... is fatal: the run aborts ... and the persisted configuration file is
never written after such a failure« for the utilities fetch. -/
theorem claim_C1_fetch_failures_counterexample :
    ("src/utils/classes.ts", "404: Not Found") ∈
      (init { envBase with
        classesFetch := some ⟨false, "Not Found", "404: Not Found"⟩ }).writes ∧
    (init { envBase with
        classesFetch := some ⟨false, "Not Found", "404: Not Found"⟩ }).outcome =
      .done ⟨"src/components/ui", "src/utils", "slate", "src/app/globals.css", some "@"⟩ := by
  decide

/-- Claim C1 as amended: in a run that reaches the fetch phase, (a) a
non-ok response of the primitive-component fetch throws with the HTTP
status text and the writes stay exactly the pre-fetch writes (no
component file, no configuration); (b) a network failure of that fetch
likewise aborts with only the pre-fetch writes; (c) a network failure of
the `classes.ts` fetch aborts the run and the configuration is never
written; but (d) a `classes.ts` response of any status -- its `ok` flag is
never inspected -- has its body written to `classes.ts` and the run
continues to persist the configuration. -/
theorem claim_C1_fetch_failures_amended :
    ∀ (env : Env) (L : Layout) (a : Option String),
      env.projectExists = true → (env.force = true ∨ env.repoDirty = false) →
      env.twInstalled = true → modernLayout env = some L → env.aliasOutcome = some a →
      ((∀ resp, env.componentFetch = some resp → resp.ok = false →
          (init env).outcome = .thrown ("Failed to fetch component: " ++ resp.statusText) ∧
          (init env).writes = twConfigWrites env ++
            (if env.tw3 = true then [(L.cssLocation, env.fileContent "1.x/zinc.css")] else []) ∧
          ∀ cfg, (init env).outcome ≠ .done cfg) ∧
       (env.componentFetch = none →
          (init env).outcome = .netError ∧
          (init env).writes = twConfigWrites env ++
            (if env.tw3 = true then [(L.cssLocation, env.fileContent "1.x/zinc.css")] else []) ∧
          ∀ cfg, (init env).outcome ≠ .done cfg) ∧
       (∀ resp, env.componentFetch = some resp → resp.ok = true →
          env.classesFetch = none →
          (init env).outcome = .netError ∧
          ∀ cfg, (init env).outcome ≠ .done cfg) ∧
       (∀ resp respC, env.componentFetch = some resp → resp.ok = true →
          env.classesFetch = some respC →
          (pathJoin L.utilsFolder "classes.ts", respC.body) ∈ (init env).writes ∧
          (init env).outcome = .done ⟨L.uiFolder, L.utilsFolder,
            replaceFirst (if env.tw3 = true then "zinc.css" else env.changeGrayResult) ".css" "",
            L.cssLocation, a⟩)) := by
  intro env L a h1 h2 h3 h4 h5
  rw [init_reached env L a h1 h2 h3 h4 h5]
  unfold initTail
  refine ⟨?_, ?_, ?_, ?_⟩
  · intro resp hr hok
    simp [hr, hok]
  · intro hr
    simp [hr]
  · intro resp hr hok hc
    simp [hr, hok, hc]
  · intro resp respC hr hok hc
    simp [hr, hok, hc]

/-- Witness for the amended C1: a failing primitive fetch aborts a
Tailwind-4 run with the status text and zero writes. -/
theorem claim_C1_fetch_failures_amended_witness :
    (init { envBase with componentFetch := some ⟨false, "Not Found", "nf"⟩ }).outcome =
      .thrown "Failed to fetch component: Not Found" ∧
    (init { envBase with componentFetch := some ⟨false, "Not Found", "nf"⟩ }).writes = [] := by
  have h := (claim_C1_fetch_failures_amended
      { envBase with componentFetch := some ⟨false, "Not Found", "nf"⟩ }
      layoutBase (some "@") rfl (Or.inr rfl) rfl (by decide) rfl).1
      ⟨false, "Not Found", "nf"⟩ rfl rfl
  refine ⟨h.1, ?_⟩
  rw [h.2.1]
  decide

theorem initTail_writes_mono (env : Env) (L : Layout) (a : Option String)
    (x : String × String)
    (hx : x ∈ twConfigWrites env ++
      (if env.tw3 = true then [(L.cssLocation, env.fileContent "1.x/zinc.css")] else [])) :
    x ∈ (initTail env L a).writes := by
  unfold initTail
  cases env.componentFetch with
  | none => simpa using hx
  | some resp =>
    by_cases hok : resp.ok
    · cases env.classesFetch with
      | none =>
        simp [hok, List.mem_append]
        simp [List.mem_append] at hx
        tauto
      | some rc =>
        simp [hok, List.mem_append]
        simp [List.mem_append] at hx
        tauto
    · simp only [Bool.not_eq_true] at hok
      simp [hok, List.mem_append]
      simp [List.mem_append] at hx
      tauto

/-- Counterexample to claim C5: a Tailwind-3 modern run in a project with
no `tailwind.config.js` (the code never checks for `tailwind.config.ts`
at all, so its absence cannot even be observed) does not fail: it writes
the config stub to the fallback filename `tailwind.config.ts` and runs to
completion -- refuting »resolution fails fatally before any file is
written; it does not fall back to a default filename«. -/
theorem claim_C5_missing_config_counterexample :
    ("tailwind.config.ts", "stub:1.x/tailwind.config.src.next.stub") ∈
      (init { envBase with tw3 := true, twConfigJsExists := false }).writes ∧
    (init { envBase with tw3 := true, twConfigJsExists := false }).outcome =
      .done ⟨"src/components/ui", "src/utils", "zinc", "src/app/globals.css", some "@"⟩ := by
  decide

/-- Claim C5 as amended: only the legacy `init` guards the precondition --
when neither `tailwind.config.js` nor `tailwind.config.ts` exists it
aborts before any file is written; the modern `init` performs no such
check: a Tailwind-3 run without `tailwind.config.js` silently writes the
selected config stub to the fallback filename `tailwind.config.ts` and
continues. -/
theorem claim_C5_missing_config_amended :
    (∀ env : LegacyEnv, env.twConfigJsExists = false → env.twConfigTsExists = false →
      legacyInit env = ⟨.noTailwindConfig, [], false, false⟩) ∧
    (∀ (env : Env) (L : Layout) (a : Option String),
      env.projectExists = true → (env.force = true ∨ env.repoDirty = false) →
      env.twInstalled = true → modernLayout env = some L → env.aliasOutcome = some a →
      env.tw3 = true → env.twConfigJsExists = false →
      ("tailwind.config.ts", env.fileContent (stubSelection env).twConfig) ∈
        (init env).writes) := by
  constructor
  · intro env h1 h2
    unfold legacyInit
    simp [h1, h2]
  · intro env L a h1 h2 h3 h4 h5 htw hjs
    rw [init_reached env L a h1 h2 h3 h4 h5]
    have hmem : ("tailwind.config.ts", env.fileContent (stubSelection env).twConfig) ∈
        twConfigWrites env ++
          (if env.tw3 = true then [(L.cssLocation, env.fileContent "1.x/zinc.css")] else []) := by
      simp [twConfigWrites, htw, hjs]
    exact initTail_writes_mono env L a _ hmem

/-- Witness for the amended C5: the legacy abort at a concrete
environment, and the modern fallback write at a concrete Tailwind-3
environment. -/
theorem claim_C5_missing_config_amended_witness :
    legacyInit { legacyEnvBase with twConfigJsExists := false, twConfigTsExists := false } =
      ⟨.noTailwindConfig, [], false, false⟩ ∧
    ("tailwind.config.ts",
      ({ envBase with tw3 := true, twConfigJsExists := false } : Env).fileContent
        (stubSelection { envBase with tw3 := true, twConfigJsExists := false }).twConfig) ∈
      (init { envBase with tw3 := true, twConfigJsExists := false }).writes := by
  constructor
  · exact claim_C5_missing_config_amended.1 _ rfl rfl
  · exact claim_C5_missing_config_amended.2
      { envBase with tw3 := true, twConfigJsExists := false }
      layoutBase (some "@") rfl (Or.inr rfl) rfl (by decide) rfl rfl rfl

theorem isPrefixOf_extend (xs ys t : List Char) (h : xs.isPrefixOf ys = true) :
    xs.isPrefixOf (ys ++ t) = true := by
  induction xs generalizing ys with
  | nil => simp [List.isPrefixOf]
  | cons a as ih =>
    cases ys with
    | nil => simp [List.isPrefixOf] at h
    | cons b bs =>
      simp only [List.cons_append, List.isPrefixOf, Bool.and_eq_true] at h ⊢
      exact ⟨h.1, ih bs h.2⟩

theorem containsSub_extend_right (pat s t : List Char) (h : containsSub pat s = true) :
    containsSub pat (s ++ t) = true := by
  induction s with
  | nil =>
    simp only [containsSub] at h
    have hp : pat = [] := by simpa using h
    subst hp
    cases t <;> simp [containsSub, List.isPrefixOf]
  | cons c rest ih =>
    simp only [List.cons_append, containsSub, Bool.or_eq_true] at h ⊢
    rcases h with h | h
    · left
      have := isPrefixOf_extend pat (c :: rest) t h
      simpa using this
    · right
      exact ih h

/-- A fixed context around the component name cannot create an occurrence
of the `refs/heads/` pattern: if the pattern occurs neither in the prefix
`P1`, nor in the name, nor in the suffix `S1`, and no nonempty pattern
piece straddles either boundary, then it does not occur in the whole
URL. -/
theorem comp_no_occurrence (P1 : String) (name : String) (S1 : List Char)
    (hP : containsSub refsHeads P1.data = false)
    (hstr1 : ∀ k, k < refsHeads.length → ¬(0 < k ∧ refsHeads.take k <:+ P1.data))
    (hS : containsSub refsHeads S1 = false)
    (hstr2 : ∀ k, k < refsHeads.length → ¬(0 < k ∧ refsHeads.drop k <+: S1))
    (hname : containsSub refsHeads name.data = false) :
    containsSub refsHeads (P1.data ++ (name.data ++ S1)) = false := by
  cases hct : containsSub refsHeads (P1.data ++ (name.data ++ S1)) with
  | false => rfl
  | true =>
    exfalso
    rcases containsSub_append_split _ _ hct with h1 | h2 | ⟨k, hk0, hkl, htk, _⟩
    · rw [h1] at hP
      exact Bool.noConfusion hP
    · rcases containsSub_append_split _ _ h2 with h3 | h4 | ⟨k, hk0, hkl, _, hdk⟩
      · rw [h3] at hname
        exact Bool.noConfusion hname
      · rw [h4] at hS
        exact Bool.noConfusion hS
      · exact hstr2 k hkl ⟨hk0, hdk⟩
    · exact hstr1 k hkl ⟨hk0, htk⟩

/-- Counterexample to claim C3: the claim quantifies over every component
name, but the URL builder splices the raw name into the path, so a name
that itself contains `refs/heads/` yields a component URL containing that
substring -- refuting »the URL returned for a component never contains
the substring refs/heads/« as universally stated. -/
theorem claim_C3_url_counterexample :
    containsSub refsHeads (getRepoUrlForComponent true "refs/heads/x").data = true := by
  decide

/-- Claim C3 as amended: for every branch (both Tailwind majors) and
every component name that does not itself contain `refs/heads/` -- in
particular every real component identifier such as `primitive` -- the
component URL never contains `refs/heads/`, while the URL returned for a
theme CSS palette and the URL for a utils file always contain the
segment `refs/heads/{branch}/`. -/
theorem claim_C3_url_asymmetry_amended :
    (∀ (tw3 : Bool) (name : String), containsSub refsHeads name.data = false →
      containsSub refsHeads (getRepoUrlForComponent tw3 name).data = false) ∧
    (∀ (grays : List String) (tw3 : Bool) (gray url : String),
      getThemesRepoUrl grays tw3 gray = some url →
      containsSub ("refs/heads/" ++ branchWorkingOn tw3 ++ "/").data url.data = true) ∧
    (∀ (tw3 : Bool) (file : String),
      containsSub ("refs/heads/" ++ branchWorkingOn tw3 ++ "/").data
        (getUtilsFolder tw3 file).data = true) := by
  refine ⟨?_, ?_, ?_⟩
  · intro tw3 name hname
    have hdec : (getRepoUrlForComponent tw3 name).data =
        (REPO ++ "/" ++ branchWorkingOn tw3 ++ "/components/ui/").data ++
          (name.data ++ ".tsx".data) := by
      simp [getRepoUrlForComponent, String.data_append, List.append_assoc]
    rw [hdec]
    cases tw3 with
    | false =>
      exact comp_no_occurrence (REPO ++ "/" ++ branchWorkingOn false ++ "/components/ui/")
        name (".tsx".data) (by decide) (by decide) (by decide) (by decide) hname
    | true =>
      exact comp_no_occurrence (REPO ++ "/" ++ branchWorkingOn true ++ "/components/ui/")
        name (".tsx".data) (by decide) (by decide) (by decide) (by decide) hname
  · intro grays tw3 gray url h
    unfold getThemesRepoUrl at h
    split at h
    · injection h with h2
      subst h2
      rw [String.data_append, String.data_append, String.data_append]
      apply containsSub_extend_right
      apply containsSub_extend_right
      apply containsSub_extend_right
      cases tw3 with
      | false => decide
      | true => decide
    · exact Option.noConfusion h
  · intro tw3 file
    unfold getUtilsFolder
    rw [String.data_append]
    apply containsSub_extend_right
    cases tw3 with
    | false => decide
    | true => decide

/-- Witness for the amended C3: the URL for the `primitive` component on
branch `1.x` is free of `refs/heads/`; the zinc theme URL and the
`classes.ts` utils URL both contain `refs/heads/1.x/`. -/
theorem claim_C3_url_asymmetry_amended_witness :
    containsSub refsHeads (getRepoUrlForComponent true "primitive").data = false ∧
    containsSub ("refs/heads/" ++ branchWorkingOn true ++ "/").data
      (THEMES_URL true ++ "/" ++ "zinc" ++ ".css").data = true ∧
    containsSub ("refs/heads/" ++ branchWorkingOn true ++ "/").data
      (getUtilsFolder true "classes.ts").data = true :=
  ⟨claim_C3_url_asymmetry_amended.1 true "primitive" (by decide),
   claim_C3_url_asymmetry_amended.2.1 ["zinc"] true "zinc" _ (by decide),
   claim_C3_url_asymmetry_amended.2.2 true "classes.ts"⟩

theorem matchUseClient_none_of_noquote (c : Char) (rest : List Char)
    (hc : isQuoteChar c = false) : matchUseClient (c :: rest) = none := by
  simp [matchUseClient, hc]

theorem stripLoop_noquote_append (xs ys : List Char)
    (h : ∀ c ∈ xs, isQuoteChar c = false) :
    stripLoop (xs ++ ys) = xs ++ stripLoop ys := by
  induction xs with
  | nil => simp
  | cons x xs2 ih =>
    have hx : isQuoteChar x = false := h x (by simp)
    have hrest : ∀ c ∈ xs2, isQuoteChar c = false := fun c hc => h c (by simp [hc])
    rw [List.cons_append, stripLoop_match_none (matchUseClient_none_of_noquote x _ hx),
      ih hrest, List.cons_append]

theorem stripLoop_noquote_id (ys : List Char) (h : ∀ c ∈ ys, isQuoteChar c = false) :
    stripLoop ys = ys := by
  have h2 := stripLoop_noquote_append ys [] h
  rw [List.append_nil] at h2
  rw [h2, show stripLoop [] = ([] : List Char) from rfl, List.append_nil]

theorem matchUseClient_at_lit (ys : List Char) :
    matchUseClient (Char.ofNat 34 :: (useClientLit ++ (Char.ofNat 34 :: ys))) =
      some (dropWs ys) := by
  have h1 : isQuoteChar (Char.ofNat 34) = true := by decide
  have h2 : useClientLit.isPrefixOf (useClientLit ++ (Char.ofNat 34 :: ys)) = true :=
    isPrefixOf_append_self _ _
  simp [matchUseClient, h1, h2, List.drop_left]

theorem dropWs_id_of_head (l : List Char) (h : ∀ c, l.head? = some c → jsWs c = false) :
    dropWs l = l := by
  cases l with
  | nil => rfl
  | cons c rest =>
    have := h c rfl
    simp [dropWs, this]

/-- Counterexample to claim C4: for a Laravel target whose fetched
component text has the first line exactly `"use client";`, the regex
`/['"]use client['"]\s*\n?/g` removes only the quoted literal, leaving a
stray `;` on the first line -- the written file is `;\n...`, not the
claimed text with the entire line removed -- and the full `init` run
writes exactly that residue to `primitive.tsx`. -/
theorem claim_C4_laravel_strip_counterexample :
    stripUseClient "\"use client\";\nexport const a = 1" = ";\nexport const a = 1" ∧
    stripUseClient "\"use client\";\nexport const a = 1" ≠ "export const a = 1" ∧
    ("src/components/ui/primitive.tsx", ";\nexport const a = 1") ∈
      (init { envBase with
          nextjs := false
          laravel := true
          componentFetch :=
            some ⟨true, "OK", "\"use client\";\nexport const a = 1"⟩ }).writes := by
  refine ⟨by decide, by decide, by decide⟩

/-- Claim C4 as amended: for a Laravel target, every occurrence of the
quoted client directive plus all immediately following whitespace is
removed. In particular, when the fetched text has a line that is exactly
`"use client"` with no trailing semicolon, whose following line does not
start with whitespace, and quote characters occur nowhere else, that
entire line is removed and every other line is unchanged; with the
trailing semicolon of the claim, only the quoted literal is removed and
a stray `;` remains on the line. For non-Laravel frameworks the fetched
body is written unmodified. -/
theorem claim_C4_laravel_strip_amended :
    (∀ (A B : String),
      (∀ c ∈ A.data, isQuoteChar c = false) →
      (∀ c ∈ B.data, isQuoteChar c = false) →
      (∀ c, B.data.head? = some c → jsWs c = false) →
      stripUseClient (A ++ "\"use client\"\n" ++ B) = A ++ B ∧
      stripUseClient (A ++ "\"use client\";\n" ++ B) = A ++ ";\n" ++ B) ∧
    (∀ (env : Env) (L : Layout) (a : Option String) (resp : FetchResp),
      env.projectExists = true → (env.force = true ∨ env.repoDirty = false) →
      env.twInstalled = true → modernLayout env = some L → env.aliasOutcome = some a →
      env.componentFetch = some resp → resp.ok = true → env.laravel = false →
      (pathJoin L.uiFolder "primitive.tsx", resp.body) ∈ (init env).writes) := by
  constructor
  · intro A B hA hB hBh
    have hBid : stripLoop B.data = B.data := stripLoop_noquote_id _ hB
    have hBdrop : dropWs B.data = B.data := dropWs_id_of_head _ hBh
    constructor
    · apply String.ext
      have h1 : (A ++ "\"use client\"\n" ++ B).data =
          A.data ++ (Char.ofNat 34 :: (useClientLit ++ (Char.ofNat 34 :: ('\n' :: B.data)))) := by
        rw [String.data_append, String.data_append, List.append_assoc]
        rfl
      show stripLoop (A ++ "\"use client\"\n" ++ B).data = (A ++ B).data
      rw [h1, stripLoop_noquote_append _ _ hA,
        stripLoop_match_some (matchUseClient_at_lit ('\n' :: B.data))]
      have h2 : dropWs ('\n' :: B.data) = B.data := by
        have hn : jsWs '\n' = true := by decide
        simp only [dropWs, hn, if_true]
        exact hBdrop
      rw [h2, hBid, String.data_append]
    · apply String.ext
      have h1 : (A ++ "\"use client\";\n" ++ B).data =
          A.data ++ (Char.ofNat 34 ::
            (useClientLit ++ (Char.ofNat 34 :: (';' :: ('\n' :: B.data))))) := by
        rw [String.data_append, String.data_append, List.append_assoc]
        rfl
      show stripLoop (A ++ "\"use client\";\n" ++ B).data = (A ++ ";\n" ++ B).data
      rw [h1, stripLoop_noquote_append _ _ hA,
        stripLoop_match_some (matchUseClient_at_lit (';' :: ('\n' :: B.data)))]
      have h2 : dropWs (';' :: ('\n' :: B.data)) = ';' :: ('\n' :: B.data) := by
        have hs : jsWs ';' = false := by decide
        simp [dropWs, hs]
      rw [h2, stripLoop_match_none (matchUseClient_none_of_noquote _ _ (by decide)),
        stripLoop_match_none (matchUseClient_none_of_noquote _ _ (by decide)), hBid,
        String.data_append, String.data_append, List.append_assoc]
      rfl
  · intro env L a resp h1 h2 h3 h4 h5 hr hok hlar
    rw [init_reached env L a h1 h2 h3 h4 h5]
    unfold initTail
    cases hc : env.classesFetch with
    | none => simp [hr, hok, hlar, hc, List.mem_append]
    | some respClasses => simp [hr, hok, hlar, hc, List.mem_append]

/-- Witness for the amended C4: a concrete directive line without a
semicolon is removed entirely (other lines unchanged), the semicolon
variant keeps the stray `;`, and a non-Laravel run writes the fetched
body untouched. -/
theorem claim_C4_laravel_strip_amended_witness :
    (stripUseClient ("const x = 1\n" ++ "\"use client\"\n" ++ "export default 1") =
        "const x = 1\n" ++ "export default 1" ∧
      stripUseClient ("const x = 1\n" ++ "\"use client\";\n" ++ "export default 1") =
        "const x = 1\n" ++ ";\n" ++ "export default 1") ∧
    ("src/components/ui/primitive.tsx", "component-source") ∈ (init envBase).writes :=
  ⟨claim_C4_laravel_strip_amended.1 "const x = 1\n" "export default 1"
      (by decide) (by decide) (by decide),
   claim_C4_laravel_strip_amended.2 envBase layoutBase (some "@")
      ⟨true, "OK", "component-source"⟩ rfl (Or.inr rfl) rfl (by decide) rfl rfl rfl rfl⟩
